import Mathlib

/-!
# Verification of the copilot-learning-templates component installer

A shallow embedding of the component-installation routines of
`cli-tool/src/index.js` (and the CLI entry point
`cli-tool/bin/create-copilot-config.js`) of the repository
`StudentCristian/copilot-learning-templates`, together with proofs of the
specification's testable properties.

Modelling conventions:
* The network is a pure function from URL strings to fetch outcomes.
  A 2xx response carries a body record giving what `response.text()`
  returns, what `JSON.parse(text)` / `response.json()` returns (`none`
  means the parse throws), and, for GitHub contents-API endpoints, the
  decoded directory listing (`none` means iterating the parsed JSON as a
  listing throws).
* The filesystem is an association list from absolute path strings to file
  data.  File data is either raw text, or a parsed JSON document for files
  read and written through `fs.readJson` / `fs.writeJson`; a `text` entry
  stands for a file whose JSON parse would fail.
* JavaScript objects are modelled as insertion-ordered association lists
  of string keys to JSON values; `undefined` is `Option.none`.
* Interactive confirmation prompts are answered by an oracle function
  from the prompt message to a boolean answer.
* The recursive skill-directory download is driven by the remote listing
  and has no intrinsic bound in the source, so the embedding takes a fuel
  parameter that decreases on each directory recursion; exhausted fuel
  behaves like an unreachable directory (the source's caught-error path).
-/

set_option maxRecDepth 100000

namespace Cct

/-- JSON values, as produced by `JSON.parse` on remote payloads and by
`fs.readJson` on local config files. -/
inductive Json where
  | null
  | bool (b : Bool)
  | num (n : Int)
  | str (s : String)
  | arr (elems : List Json)
  | obj (fields : List (String × Json))
deriving Repr, Inhabited

/-- First-match lookup in a JavaScript-object association list
(`o[k]`, `undefined` when absent). -/
def objGet (o : List (String × Json)) (k : String) : Option Json :=
  match o with
  | [] => none
  | p :: rest => if p.1 = k then some p.2 else objGet rest k

/-- `delete o[k]`: remove every binding of key `k`. -/
def objDelete (o : List (String × Json)) (k : String) : List (String × Json) :=
  o.filter (fun p => p.1 ≠ k)

/-- The object spread `{...a, ...b}`: keys of `a` in order with values
overridden by `b` on collision, then the keys of `b` absent from `a`, in
`b`'s order. -/
def objSpread (a b : List (String × Json)) : List (String × Json) :=
  a.map (fun p => (p.1, (objGet b p.1).getD p.2)) ++
    b.filter (fun p => (objGet a p.1).isNone)

/-- `{...j, k: v}` for a JSON document `j`: spreading a non-object
primitive contributes no properties; an existing key `k` is updated in
place, otherwise `k` is appended. -/
def jsSpreadSet (j : Json) (k : String) (v : Json) : Json :=
  match j with
  | .obj kvs =>
    if (objGet kvs k).isSome then
      .obj (kvs.map (fun p => if p.1 = k then (p.1, v) else p))
    else
      .obj (kvs ++ [(k, v)])
  | _ => .obj [(k, v)]

/-- Property access `j.k` on a JSON document: `undefined` (i.e. `none`)
unless `j` is an object with key `k`. -/
def jsGet (j : Json) (k : String) : Option Json :=
  match j with
  | .obj o => objGet o k
  | _ => none

/-- `delete j.k` on a JSON document; a no-op on non-objects. -/
def jsDelete (j : Json) (k : String) : Json :=
  match j with
  | .obj o => .obj (objDelete o k)
  | _ => j

/-- JavaScript truthiness of a JSON value. -/
def truthy : Json → Bool
  | .null => false
  | .bool b => b
  | .num n => n ≠ 0
  | .str s => s ≠ ""
  | .arr _ => true
  | .obj _ => true

/-- `a || b` where `a` may be `undefined` (property access miss). -/
def jsOrD (a : Option Json) (b : Json) : Json :=
  match a with
  | some v => if truthy v then v else b
  | none => b

/-- The string-keyed properties a value contributes under object spread:
an object's fields; primitives and `null` contribute none.  (A spread
string or array would contribute numeric index properties, which no
JSON-derived server mapping carries a collision with; they are not
modelled.) -/
def jsProps : Json → List (String × Json)
  | .obj kvs => kvs
  | _ => []

/-! ## Identifier splitting

JavaScript's `s.split('/')` and `s.includes('/')`, modelled character by
character so that their interaction with string concatenation is
provable. -/

/-- Worker for `jsSplitSlash`: `acc` holds the characters of the current
segment in reverse. -/
def splitSlashAux : List Char → List Char → List String
  | [], acc => [String.mk acc.reverse]
  | c :: cs, acc =>
    if c = '/' then String.mk acc.reverse :: splitSlashAux cs []
    else splitSlashAux cs (c :: acc)

/-- `s.split('/')`: the (possibly empty) segments of `s` between `/`
occurrences, in order. -/
def jsSplitSlash (s : String) : List String :=
  splitSlashAux s.data []

/-- `s.includes('/')`. -/
def includesSlash (s : String) : Bool :=
  s.data.contains '/'

/-- Worker for `jsEndsWith` over reversed character lists. -/
def endsWithAux : List Char → List Char → Bool
  | _, [] => true
  | [], _ :: _ => false
  | c :: cs, d :: ds => c = d && endsWithAux cs ds

/-- `s.endsWith(suffix)`, character by character. -/
def jsEndsWith (s suffix : String) : Bool :=
  endsWithAux s.data.reverse suffix.data.reverse

/-- Join a nonempty list of segments with `/` separators (the inverse of
`jsSplitSlash` on slash-free segments); used to describe multi-segment
identifiers in theorem statements. -/
def joinSlash : List String → String
  | [] => ""
  | [s] => s
  | s :: rest => s ++ "/" ++ joinSlash rest

/-! ## Filesystem and network -/

/-- Contents of a file in the target project: raw text, or a JSON
document for files manipulated through `fs.readJson` / `fs.writeJson`
(a `text` entry is a file whose JSON parse would fail). -/
inductive FileData where
  | text (s : String)
  | json (j : Json)
deriving Repr, Inhabited

/-- The local filesystem: an association list from absolute path strings
to file data (first match wins). -/
abbrev FS := List (String × FileData)

/-- `fs.pathExists` / file read. -/
def fsLookup (fs : FS) (p : String) : Option FileData :=
  match fs with
  | [] => none
  | e :: rest => if e.1 = p then some e.2 else fsLookup rest p

/-- `fs.writeFile` / `fs.writeJson`: create or overwrite the file at `p`
(directory creation via `fs.ensureDir` is implicit). -/
def fsWrite (fs : FS) (p : String) (d : FileData) : FS :=
  (p, d) :: fs.filter (fun e => e.1 ≠ p)

/-- One entry of a GitHub contents-API directory listing, as consumed by
the skill downloader (`item.name`, `item.type`, `item.download_url`,
`item.url`). -/
structure DirItem where
  name : String
  type : String
  download_url : String
  url : String
deriving Repr, Inhabited

/-- Body of a successful (2xx) HTTP response: the text returned by
`response.text()`, the value of `JSON.parse(text)` (`none` when the parse
throws), and the decoded directory listing for contents-API responses
(`none` when iterating the parsed body as a listing throws). -/
structure RespBody where
  text : String := ""
  json : Option Json := none
  listing : Option (List DirItem) := none
deriving Repr, Inhabited

/-- Outcome of `fetch(url)` followed by the status checks the source
performs: 2xx (`response.ok`), 404, another non-2xx status, or the fetch
itself throwing (network error). -/
inductive FetchOutcome where
  | success (body : RespBody)
  | notFound
  | httpError (status : Nat) (statusText : String)
  | netThrow (msg : String)
deriving Repr, Inhabited

/-- The remote world: what fetching each URL yields.  A single run's
world is fixed (the installer performs no retries). -/
abbrev Network := String → FetchOutcome

/-- Answers to `inquirer` confirmation prompts, keyed by the prompt
message. -/
abbrev ConfirmOracle := String → Bool

/-- Return value of the per-component install functions as a JavaScript
value: `true`, `false`, or `undefined` (a bare `return;`). -/
inductive JsRet where
  | tt
  | ff
  | undef
deriving Repr, DecidableEq

/-- JavaScript truthiness of an install result, as tested by
`if (success) successfullyInstalled++`. -/
def JsRet.truthy : JsRet → Bool
  | .tt => true
  | _ => false

/-- `path.join` restricted to the separator-free segments the installer
uses (no normalisation is ever needed on these inputs). -/
def pathJoin (a b : String) : String := a ++ "/" ++ b

/-! ## Component resolver: remote URLs and local destinations

Each `installIndividual*` function in `src/index.js` builds its raw
GitHub URL with an `if (name.includes('/'))` whose two branches produce
the identical template string; the builders below are that single
string. -/

def rawBase : String :=
  "https://raw.githubusercontent.com/StudentCristian/copilot-learning-templates/main/cli-tool/components/"

def agentUrl (agentName : String) : String :=
  rawBase ++ "agents/" ++ agentName ++ ".agent.md"

def promptUrl (promptName : String) : String :=
  rawBase ++ "prompts/" ++ promptName ++ ".prompt.md"

def mcpUrl (mcpName : String) : String :=
  rawBase ++ "mcps/" ++ mcpName ++ ".json"

def instructionUrl (instructionName : String) : String :=
  rawBase ++ "instructions/" ++ instructionName ++ ".instructions.md"

def copilotInstructionsUrl (instructionName : String) : String :=
  rawBase ++ "instructions/copilot-instructions/" ++ instructionName ++ "/copilot-instructions.md"

def workspaceAgentsUrl (agentsFile : String) : String :=
  rawBase ++ "workspace/" ++ agentsFile ++ "/AGENTS.md"

/-- GitHub contents-API endpoint used for the recursive skill download. -/
def skillApiUrl (skillName : String) : String :=
  "https://api.github.com/repos/StudentCristian/copilot-learning-templates/contents/cli-tool/components/skills/"
    ++ skillName

/-- Local filename for an agent, from `installIndividualAgent`:
`const [category, filename] = agentName.split('/')` keeps the element at
index 1 of the split when the name contains a `/`. -/
def agentFileName (agentName : String) : String :=
  if includesSlash agentName then (jsSplitSlash agentName).getD 1 agentName
  else agentName

/-- Local filename for a prompt, from `installIndividualPrompt`: the same
index-1 destructuring as for agents. -/
def promptFileName (promptName : String) : String :=
  if includesSlash promptName then (jsSplitSlash promptName).getD 1 promptName
  else promptName

/-- Local filename for an instruction, from `installInstruction`:
`parts[parts.length - 1]`, the final segment. -/
def instructionFileName (instructionName : String) : String :=
  if includesSlash instructionName then
    (jsSplitSlash instructionName).getLastD instructionName
  else instructionName

/-- Local skill directory name, from `installIndividualSkill`:
`skillName.split('/').pop()`, the final segment. -/
def skillBaseNameOf (skillName : String) : String :=
  if includesSlash skillName then (jsSplitSlash skillName).getLastD skillName
  else skillName

/-- Destination of an agent: `.github/agents/<fileName>.agent.md`. -/
def agentTargetFile (targetDir agentName : String) : String :=
  pathJoin (pathJoin (pathJoin targetDir ".github") "agents") (agentFileName agentName ++ ".agent.md")

/-- Destination of a prompt: `.github/prompts/<fileName>.prompt.md`. -/
def promptTargetFile (targetDir promptName : String) : String :=
  pathJoin (pathJoin (pathJoin targetDir ".github") "prompts") (promptFileName promptName ++ ".prompt.md")

/-- Local directory into which a skill's files are written:
`.github/skills/<skillBaseName>` below the target directory. -/
def skillTargetDir (targetDir skillName : String) : String :=
  pathJoin (pathJoin (pathJoin targetDir ".github") "skills") (skillBaseNameOf skillName)

/-- Destination of an instruction:
`.github/instructions/<fileName>.instructions.md`. -/
def instructionTargetFile (targetDir instructionName : String) : String :=
  pathJoin (pathJoin (pathJoin targetDir ".github") "instructions")
    (instructionFileName instructionName ++ ".instructions.md")

/-- Destination of the `.vscode/mcp.json` merged MCP config (independent
of the MCP identifier). -/
def mcpTargetFile (targetDir : String) : String :=
  pathJoin (pathJoin targetDir ".vscode") "mcp.json"

/-- Destination of the singleton always-on instructions file
(independent of the template identifier). -/
def copilotInstructionsTargetFile (targetDir : String) : String :=
  pathJoin (pathJoin targetDir ".github") "copilot-instructions.md"

/-- Destination of the singleton workspace `AGENTS.md` (independent of
the template identifier). -/
def workspaceAgentsTargetFile (targetDir : String) : String :=
  pathJoin targetDir "AGENTS.md"

/-! ## Per-component installers -/

/-- `installIndividualAgent`: fetch the agent file and write it to the
flat `.github/agents` directory.  A 404 prints a hint and does a bare
`return;` (JavaScript `undefined`); any other non-2xx status throws and
is caught by the function's own `catch`, which returns `false`. -/
def installIndividualAgent (net : Network) (agentName targetDir : String) (fs : FS) :
    JsRet × FS :=
  match net (agentUrl agentName) with
  | .success body =>
    (.tt, fsWrite fs (agentTargetFile targetDir agentName) (.text body.text))
  | .notFound => (.undef, fs)
  | .httpError _ _ => (.ff, fs)
  | .netThrow _ => (.ff, fs)

/-- `installIndividualPrompt`: as for agents, into `.github/prompts`. -/
def installIndividualPrompt (net : Network) (promptName targetDir : String) (fs : FS) :
    JsRet × FS :=
  match net (promptUrl promptName) with
  | .success body =>
    (.tt, fsWrite fs (promptTargetFile targetDir promptName) (.text body.text))
  | .notFound => (.undef, fs)
  | .httpError _ _ => (.ff, fs)
  | .netThrow _ => (.ff, fs)

/-- `installInstruction`: as for agents, into `.github/instructions`;
unlike agents and prompts its 404 branch returns `false` explicitly. -/
def installInstruction (net : Network) (instructionName targetDir : String) (fs : FS) :
    JsRet × FS :=
  match net (instructionUrl instructionName) with
  | .success body =>
    (.tt, fsWrite fs (instructionTargetFile targetDir instructionName) (.text body.text))
  | .notFound => (.ff, fs)
  | .httpError _ _ => (.ff, fs)
  | .netThrow _ => (.ff, fs)

/-- The server mapping extracted from a downloaded MCP payload:
`mcpConfig.servers || mcpConfig.mcpServers || {}`. -/
def extractServers (mcpConfig : Json) : Json :=
  jsOrD (jsGet mcpConfig "servers") (jsOrD (jsGet mcpConfig "mcpServers") (.obj []))

/-- Effect of `delete newServers[serverName].description` on one server
entry: deletes `description` from an object value; arrays carry no
string-keyed `description`, and primitives and `null` fail the loop's
truthy-object guard, so all are left alone. -/
def stripServer : Json → Json
  | .obj sv => .obj (objDelete sv "description")
  | v => v

/-- The `description`-stripping loop of `installIndividualMCP`:
`for (const serverName in newServers) { ... delete ... }`. -/
def stripDescriptions (servers : Json) : Json :=
  match servers with
  | .obj kvs => .obj (kvs.map (fun p => (p.1, stripServer p.2)))
  | j => j

/-- `installIndividualMCP`: download the JSON payload, extract its server
mapping (supporting the legacy `mcpServers` key in the payload), strip
`description` fields, merge onto the `servers` mapping of any existing
`.vscode/mcp.json` (incoming entries win), delete the top-level
`mcpServers` key from the merged document, and write it back.  A JSON
parse failure of the payload or of the existing file throws and is
caught, returning `false`. -/
def installIndividualMCP (net : Network) (mcpName targetDir : String) (fs : FS) :
    JsRet × FS :=
  match net (mcpUrl mcpName) with
  | .notFound => (.undef, fs)
  | .httpError _ _ => (.ff, fs)
  | .netThrow _ => (.ff, fs)
  | .success body =>
    match body.json with
    | none => (.ff, fs)
    | some mcpConfig =>
      let newServers := stripDescriptions (extractServers mcpConfig)
      let targetMcpFile := mcpTargetFile targetDir
      let existingRead : Option Json :=
        match fsLookup fs targetMcpFile with
        | none => some (.obj [])
        | some (.json j) => some j
        | some (.text _) => none
      match existingRead with
      | none => (.ff, fs)
      | some existingConfig =>
        let existingServers := jsOrD (jsGet existingConfig "servers") (.obj [])
        let mergedServers : Json := .obj (objSpread (jsProps existingServers) (jsProps newServers))
        let mergedConfig := jsDelete (jsSpreadSet existingConfig "servers" mergedServers) "mcpServers"
        (.tt, fsWrite fs targetMcpFile (.json mergedConfig))

/-! ## Skill installation -/

/-- One entry of the in-memory `downloadedFiles` map built by the skill
downloader before anything touches the disk. -/
structure SkillFile where
  content : String
  executable : Bool
deriving Repr, DecidableEq

/-- The `downloadedFiles` map: insertion-ordered keys (`Object.entries`
order), later assignment to an existing key overwrites in place. -/
abbrev DownloadMap := List (String × SkillFile)

def dmLookup (m : DownloadMap) (k : String) : Option SkillFile :=
  match m with
  | [] => none
  | e :: rest => if e.1 = k then some e.2 else dmLookup rest k

/-- `downloadedFiles[targetPath] = {...}`. -/
def dmWrite (m : DownloadMap) (k : String) (v : SkillFile) : DownloadMap :=
  if m.any (fun e => e.1 = k) then
    m.map (fun e => if e.1 = k then (k, v) else e)
  else m ++ [(k, v)]

/-- The recursive `downloadDirectory` closure of `installIndividualSkill`:
list the directory at `apiUrl`, buffer each file's content into the
`downloadedFiles` map via the `for (const item of contents)` loop, and
recurse into subdirectories.  Returns whether THIS call succeeded (its
own fetch was 2xx and iterable) together with the updated map; a 404,
another non-2xx, a network error, or a non-iterable body all land in the
`return false` / caught-error paths.  In the loop, a file whose fetch is
2xx is buffered (executable when its name ends in `.py` or `.sh`), a
file whose fetch fails or throws is silently skipped, and a
subdirectory's recursive boolean result is discarded.  `fuel` bounds the
remote-driven recursion depth; exhausted fuel behaves like an
unreachable listing. -/
def downloadDirectory (net : Network) (skillBaseName : String) :
    Nat → String → String → DownloadMap → Bool × DownloadMap
  | 0, _, _, acc => (false, acc)
  | fuel + 1, apiUrl, relativePath, acc =>
    match net apiUrl with
    | .success body =>
      match body.listing with
      | some items =>
        (true, items.foldl
          (fun a item =>
            let itemPath :=
              if relativePath = "" then item.name else relativePath ++ "/" ++ item.name
            if item.type = "file" then
              match net item.download_url with
              | .success fbody =>
                dmWrite a (".github/skills/" ++ skillBaseName ++ "/" ++ itemPath)
                  ⟨fbody.text, jsEndsWith item.name ".py" || jsEndsWith item.name ".sh"⟩
              | _ => a
            else if item.type = "dir" then
              (downloadDirectory net skillBaseName fuel item.url itemPath a).2
            else a)
          acc)
      | none => (false, acc)
    | .notFound => (false, acc)
    | .httpError _ _ => (false, acc)
    | .netThrow _ => (false, acc)

/-- Flush the buffered `downloadedFiles` map to disk, in insertion order
(the executable-bit `chmod` is filesystem metadata outside this model's
file contents). -/
def writeDownloadedFiles (targetDir : String) (files : DownloadMap) (fs : FS) : FS :=
  files.foldl (fun acc e => fsWrite acc (pathJoin targetDir e.1) (.text e.2.content)) fs

/-- The relative path at which the sentinel `SKILL.md` of a skill must
appear in the downloaded set. -/
def skillSentinelPath (skillBaseName : String) : String :=
  ".github/skills/" ++ skillBaseName ++ "/SKILL.md"

/-- `installIndividualSkill`: walk the skill's remote directory tree into
an in-memory map, fail unless the walk's top-level call succeeded, fail
unless `SKILL.md` is among the buffered files, and only then write every
buffered file below the target directory. -/
def installIndividualSkill (net : Network) (fuel : Nat) (skillName targetDir : String)
    (fs : FS) : JsRet × FS :=
  let skillBaseName := skillBaseNameOf skillName
  let (success, downloadedFiles) :=
    downloadDirectory net skillBaseName fuel (skillApiUrl skillName) "" []
  if !success then (.ff, fs)
  else if (dmLookup downloadedFiles (skillSentinelPath skillBaseName)).isNone then (.ff, fs)
  else (.tt, writeDownloadedFiles targetDir downloadedFiles fs)

/-! ## Singleton installers -/

/-- `installCopilotInstructions`: download the chosen template and write
it to the fixed path `.github/copilot-instructions.md`.  When the file
already exists and `--yes` was not supplied, the operator is asked to
confirm; a declined prompt cancels the install (`return false`) without
writing. -/
def installCopilotInstructions (net : Network) (confirm : ConfirmOracle)
    (instructionName targetDir : String) (yes : Bool) (fs : FS) : JsRet × FS :=
  match net (copilotInstructionsUrl instructionName) with
  | .notFound => (.ff, fs)
  | .httpError _ _ => (.ff, fs)
  | .netThrow _ => (.ff, fs)
  | .success body =>
    let targetFile := copilotInstructionsTargetFile targetDir
    if (fsLookup fs targetFile).isSome ∧ ¬yes then
      if confirm "copilot-instructions.md already exists. Overwrite?" then
        (.tt, fsWrite fs targetFile (.text body.text))
      else (.ff, fs)
    else (.tt, fsWrite fs targetFile (.text body.text))

/-- `installWorkspaceAgents`: as for `copilot-instructions.md`, for the
singleton `AGENTS.md` at the workspace root. -/
def installWorkspaceAgents (net : Network) (confirm : ConfirmOracle)
    (agentsFile targetDir : String) (yes : Bool) (fs : FS) : JsRet × FS :=
  match net (workspaceAgentsUrl agentsFile) with
  | .notFound => (.ff, fs)
  | .httpError _ _ => (.ff, fs)
  | .netThrow _ => (.ff, fs)
  | .success body =>
    let targetFile := workspaceAgentsTargetFile targetDir
    if (fsLookup fs targetFile).isSome ∧ ¬yes then
      if confirm "AGENTS.md already exists. Overwrite?" then
        (.tt, fsWrite fs targetFile (.text body.text))
      else (.ff, fs)
    else (.tt, fsWrite fs targetFile (.text body.text))

/-! ## Batch orchestrator -/

/-- The CLI options relevant to multi-component installation, as parsed
by `commander` in `bin/create-copilot-config.js` (each component flag
carries a single, possibly comma-separated, string). -/
structure Options where
  agent : Option String := none
  skill : Option String := none
  mcp : Option String := none
  instruction : Option String := none
  prompt : Option String := none
  copilotInstructions : Option String := none
  workspaceAgents : Option String := none
  yes : Bool := false
deriving Repr

/-- `s.split(',')`, character by character like `splitSlashAux`. -/
def splitCommaAux : List Char → List Char → List String
  | [], acc => [String.mk acc.reverse]
  | c :: cs, acc =>
    if c = ',' then String.mk acc.reverse :: splitCommaAux cs []
    else splitCommaAux cs (c :: acc)

def jsSplitComma (s : String) : List String :=
  splitCommaAux s.data []

/-- `s.trim()` on the ASCII whitespace that component lists can carry. -/
def jsTrim (s : String) : String :=
  let ws : Char → Bool := fun c => c = ' ' ∨ c = '\t' ∨ c = '\n' ∨ c = '\r'
  String.mk (((s.data.dropWhile ws).reverse.dropWhile ws).reverse)

/-- `input.split(',').map(a => a.trim()).filter(a => a)`: the
comma-separated component list normalisation of
`installMultipleComponents`. -/
def parseComponentList (input : String) : List String :=
  ((jsSplitComma input).map jsTrim).filter (fun a => a ≠ "")

/-- The normalised component list for one optional flag. -/
def componentsOf (flag : Option String) : List String :=
  match flag with
  | none => []
  | some input => parseComponentList input

/-- Run one kind's installer over its identifier list, threading the
filesystem and counting truthy results
(`if (success) successfullyInstalled++`). -/
def runInstalls (step : String → FS → JsRet × FS) (names : List String)
    (st : Nat × FS) : Nat × FS :=
  names.foldl
    (fun st n =>
      let (r, fs') := step n st.2
      (st.1 + (if r.truthy then 1 else 0), fs'))
    st

/-- The final report printed by `installMultipleComponents`. -/
inductive BatchSummary where
  | nothingRequested
  | allInstalled (n : Nat)
  | mixed (succeeded total : Nat)
  | noneInstalled
deriving Repr, DecidableEq

/-- Result of a batch run: components attempted, components that
succeeded, the summary message kind, and the final filesystem. -/
structure BatchResult where
  attempted : Nat
  succeeded : Nat
  summary : BatchSummary
  fs : FS
deriving Repr

/-- `installMultipleComponents`: normalise each flag into identifier
lists, then install agents, MCPs, skills, instructions, prompts, the
singleton `copilot-instructions.md`, and the singleton `AGENTS.md`, in
that fixed order, counting successes.  Per-item failures never abort the
batch (each installer catches its own errors), and the whole function is
wrapped in its own `try`/`catch`, so no error escapes it. -/
def installMultipleComponents (net : Network) (confirm : ConfirmOracle)
    (opts : Options) (targetDir : String) (fuel : Nat) (fs : FS) : BatchResult :=
  let agents := componentsOf opts.agent
  let mcps := componentsOf opts.mcp
  let skills := componentsOf opts.skill
  let instructions := componentsOf opts.instruction
  let prompts := componentsOf opts.prompt
  let totalComponents :=
    agents.length + mcps.length + skills.length + instructions.length + prompts.length
      + (if opts.copilotInstructions.isSome then 1 else 0)
      + (if opts.workspaceAgents.isSome then 1 else 0)
  if totalComponents = 0 then
    ⟨0, 0, .nothingRequested, fs⟩
  else
    let st : Nat × FS := (0, fs)
    let st := runInstalls (fun n => installIndividualAgent net n targetDir) agents st
    let st := runInstalls (fun n => installIndividualMCP net n targetDir) mcps st
    let st := runInstalls (fun n => installIndividualSkill net fuel n targetDir) skills st
    let st := runInstalls (fun n => installInstruction net n targetDir) instructions st
    let st := runInstalls (fun n => installPromptStep net targetDir n) prompts st
    let st :=
      match opts.copilotInstructions with
      | none => st
      | some name =>
        let (r, fs') := installCopilotInstructions net confirm name targetDir opts.yes st.2
        (st.1 + (if r.truthy then 1 else 0), fs')
    let st :=
      match opts.workspaceAgents with
      | none => st
      | some name =>
        let (r, fs') := installWorkspaceAgents net confirm name targetDir opts.yes st.2
        (st.1 + (if r.truthy then 1 else 0), fs')
    let successfullyInstalled := st.1
    let summary : BatchSummary :=
      if successfullyInstalled = totalComponents then .allInstalled successfullyInstalled
      else if successfullyInstalled > 0 then .mixed successfullyInstalled totalComponents
      else .noneInstalled
    ⟨totalComponents, successfullyInstalled, summary, st.2⟩
where
  /-- Prompt installs in the batch loop call `installIndividualPrompt`
  directly (argument order flipped for `runInstalls`). -/
  installPromptStep (net : Network) (targetDir n : String) (fs : FS) : JsRet × FS :=
    installIndividualPrompt net n targetDir fs

/-- The `program.action` handler of `bin/create-copilot-config.js` on the
multi-component path: `createCopilotConfig` dispatches to
`installMultipleComponents`, whose internal `catch` means no error
reaches the top-level handler, so `process.exit(1)` is never invoked and
the process exit code is 0.  The model pairs the exit code with the batch
result; the exit code is 1 exactly when an error escapes to the handler,
which on this path is never. -/
def cliBatchRun (net : Network) (confirm : ConfirmOracle) (opts : Options)
    (targetDir : String) (fuel : Nat) (fs : FS) : Nat × BatchResult :=
  (0, installMultipleComponents net confirm opts targetDir fuel fs)

/-! ## Lemmas about object and filesystem maps -/

theorem objGet_append (xs ys : List (String × Json)) (k : String) :
    objGet (xs ++ ys) k = ((objGet xs k).map some).getD (objGet ys k) := by
  induction xs with
  | nil => simp [objGet]
  | cons p rest ih =>
    by_cases h : p.1 = k <;> simp [objGet, h, ih]

theorem objGet_mapVals (g : String → Json → Json) (o : List (String × Json)) (k : String) :
    objGet (o.map (fun p => (p.1, g p.1 p.2))) k = (objGet o k).map (g k) := by
  induction o with
  | nil => simp [objGet]
  | cons p rest ih =>
    by_cases h : p.1 = k
    · subst h; simp [objGet]
    · simp [objGet, h, ih]

theorem objGet_filterKey (pred : String → Bool) (o : List (String × Json)) (k : String) :
    objGet (o.filter (fun p => pred p.1)) k = if pred k then objGet o k else none := by
  induction o with
  | nil => simp [objGet]
  | cons p rest ih =>
    by_cases hk : p.1 = k
    · subst hk
      by_cases hp : pred p.1 <;> simp [objGet, List.filter_cons, hp, ih]
    · by_cases hp : pred p.1 <;> simp [objGet, List.filter_cons, hp, hk, ih]

theorem objGet_objDelete (o : List (String × Json)) (k k' : String) :
    objGet (objDelete o k') k = if k = k' then none else objGet o k := by
  have h := objGet_filterKey (fun s => s ≠ k') o k
  simpa [objDelete] using h

theorem objGet_spread_mapPart (a b : List (String × Json)) (k : String) :
    objGet (a.map (fun p => (p.1, (objGet b p.1).getD p.2))) k
      = (objGet a k).map (fun v => (objGet b k).getD v) := by
  induction a with
  | nil => simp [objGet]
  | cons p rest ih =>
    by_cases h : p.1 = k
    · subst h; simp [objGet]
    · simp [objGet, h, ih]

theorem objGet_spread_filterPart (a b : List (String × Json)) (k : String) :
    objGet (b.filter (fun p => (objGet a p.1).isNone)) k
      = if (objGet a k).isNone then objGet b k else none := by
  induction b with
  | nil => simp [objGet]
  | cons p rest ih =>
    by_cases hk : p.1 = k
    · subst hk
      by_cases ha : (objGet a p.1).isNone <;>
        simp [List.filter_cons, ha, objGet, ih]
    · by_cases ha : (objGet a p.1).isNone <;>
        simp [List.filter_cons, ha, objGet, hk, ih]

theorem objGet_objSpread (a b : List (String × Json)) (k : String) :
    objGet (objSpread a b) k = ((objGet b k).map some).getD (objGet a k) := by
  rw [objSpread, objGet_append, objGet_spread_mapPart, objGet_spread_filterPart]
  cases ha : objGet a k with
  | none => cases hb : objGet b k <;> simp [ha, hb]
  | some v => cases hb : objGet b k <;> simp [ha, hb]

theorem objGet_stripDescriptions (kvs : List (String × Json)) (k : String) :
    jsGet (stripDescriptions (.obj kvs)) k = (objGet kvs k).map stripServer := by
  simpa [stripDescriptions, jsGet] using
    objGet_mapVals (fun _ v => stripServer v) kvs k

theorem jsGet_stripServer_description (v : Json) :
    jsGet (stripServer v) "description" = none := by
  cases v <;> simp [stripServer, jsGet, objGet_objDelete]

theorem objGet_setInPlace_self (kvs : List (String × Json)) (k : String) (v : Json) :
    objGet (kvs.map (fun p => if p.1 = k then (p.1, v) else p)) k
      = if (objGet kvs k).isSome then some v else none := by
  induction kvs with
  | nil => simp [objGet]
  | cons p rest ih =>
    by_cases hp : p.1 = k
    · simp [objGet, hp]
    · simp [objGet, hp, ih]

theorem objGet_setInPlace_ne (kvs : List (String × Json)) (k k' : String) (v : Json)
    (h : k' ≠ k) :
    objGet (kvs.map (fun p => if p.1 = k then (p.1, v) else p)) k' = objGet kvs k' := by
  induction kvs with
  | nil => simp [objGet]
  | cons p rest ih =>
    by_cases hp : p.1 = k
    · simp [objGet, hp, Ne.symm h, ih]
    · by_cases hp' : p.1 = k' <;> simp [objGet, hp, hp', h, ih]

theorem jsGet_jsSpreadSet_self (j : Json) (k : String) (v : Json) :
    jsGet (jsSpreadSet j k v) k = some v := by
  cases j
  case obj kvs =>
    by_cases h : (objGet kvs k).isSome
    · simp [jsSpreadSet, h, jsGet, objGet_setInPlace_self]
    · simp [jsSpreadSet, h, jsGet, objGet_append,
        Option.not_isSome_iff_eq_none.mp h, objGet]
  all_goals simp [jsSpreadSet, jsGet, objGet]

theorem jsGet_jsSpreadSet_ne (j : Json) (k k' : String) (v : Json) (h : k' ≠ k) :
    jsGet (jsSpreadSet j k v) k' = jsGet j k' := by
  cases j
  case obj kvs =>
    by_cases hs : (objGet kvs k).isSome
    · simp [jsSpreadSet, hs, jsGet, objGet_setInPlace_ne _ _ _ _ h]
    · simp [jsSpreadSet, hs, jsGet, objGet_append]
      cases hg : objGet kvs k' <;> simp [objGet, Ne.symm h]
  all_goals simp [jsSpreadSet, jsGet, objGet, Ne.symm h]

theorem jsGet_jsDelete (j : Json) (k k' : String) :
    jsGet (jsDelete j k') k = if k = k' then none else jsGet j k := by
  cases j
  case obj o => simp [jsDelete, jsGet, objGet_objDelete]
  all_goals simp [jsDelete, jsGet, ite_self]

theorem fsLookup_fsWrite_self (fs : FS) (p : String) (d : FileData) :
    fsLookup (fsWrite fs p d) p = some d := by
  simp [fsWrite, fsLookup]

theorem fsLookup_filterKey (pred : String → Bool) (fs : FS) (q : String) :
    fsLookup (fs.filter (fun e => pred e.1)) q
      = if pred q then fsLookup fs q else none := by
  induction fs with
  | nil => simp [fsLookup]
  | cons e rest ih =>
    by_cases hq : e.1 = q
    · subst hq
      by_cases hp : pred e.1 <;> simp [List.filter_cons, hp, fsLookup, ih]
    · by_cases hp : pred e.1 <;> simp [List.filter_cons, hp, fsLookup, hq, ih]

theorem fsLookup_fsWrite_ne (fs : FS) (p q : String) (d : FileData) (h : q ≠ p) :
    fsLookup (fsWrite fs p d) q = fsLookup fs q := by
  have h3 := fsLookup_filterKey (fun s => s ≠ p) fs q
  simp only [h, decide_True, if_true, decide_not] at h3
  simp [fsWrite, fsLookup, Ne.symm h, h3]

/-! ## Lemmas about identifier splitting -/

theorem splitSlashAux_no_slash (cs acc : List Char) (h : '/' ∉ cs) :
    splitSlashAux cs acc = [String.mk (acc.reverse ++ cs)] := by
  induction cs generalizing acc with
  | nil => simp [splitSlashAux]
  | cons c rest ih =>
    have hc : ¬ c = '/' := fun hc => h (hc ▸ List.mem_cons_self c rest)
    have hr : '/' ∉ rest := fun hr => h (List.mem_cons_of_mem c hr)
    simp [splitSlashAux, hc, ih (c :: acc) hr]

theorem splitSlashAux_slash (xs ys acc : List Char) (h : '/' ∉ xs) :
    splitSlashAux (xs ++ '/' :: ys) acc
      = String.mk (acc.reverse ++ xs) :: splitSlashAux ys [] := by
  induction xs generalizing acc with
  | nil => simp [splitSlashAux]
  | cons c rest ih =>
    have hc : ¬ c = '/' := fun hc => h (hc ▸ List.mem_cons_self c rest)
    have hr : '/' ∉ rest := fun hr => h (List.mem_cons_of_mem c hr)
    simp [splitSlashAux, hc, ih (c :: acc) hr]

theorem not_mem_of_includesSlash_eq_false (s : String) (h : includesSlash s = false) :
    '/' ∉ s.data := by
  simpa [includesSlash] using h

theorem jsSplitSlash_no_slash (s : String) (h : includesSlash s = false) :
    jsSplitSlash s = [s] := by
  have := splitSlashAux_no_slash s.data [] (not_mem_of_includesSlash_eq_false s h)
  simpa [jsSplitSlash] using this

/-- `joinSlash (s :: rest)` for nonempty `rest` is `s ++ "/" ++ joinSlash rest`. -/
theorem joinSlash_cons (s : String) (rest : List String) (h : rest ≠ []) :
    joinSlash (s :: rest) = s ++ "/" ++ joinSlash rest := by
  cases rest with
  | nil => exact absurd rfl h
  | cons t ts => rfl

theorem data_joinSlash_cons (s : String) (rest : List String) (h : rest ≠ []) :
    (joinSlash (s :: rest)).data = s.data ++ '/' :: (joinSlash rest).data := by
  rw [joinSlash_cons s rest h, String.data_append, String.data_append,
    List.append_assoc]
  rfl

theorem jsSplitSlash_joinSlash (segs : List String) (hne : segs ≠ [])
    (h : ∀ s ∈ segs, includesSlash s = false) :
    jsSplitSlash (joinSlash segs) = segs := by
  induction segs with
  | nil => exact absurd rfl hne
  | cons s rest ih =>
    by_cases hr : rest = []
    · subst hr
      exact jsSplitSlash_no_slash s (h s (List.mem_cons_self s []))
    · have hs : '/' ∉ s.data :=
        not_mem_of_includesSlash_eq_false s (h s (List.mem_cons_self s rest))
      have hrest : ∀ x ∈ rest, includesSlash x = false :=
        fun x hx => h x (List.mem_cons_of_mem s hx)
      have ihr : jsSplitSlash (joinSlash rest) = rest := ih hr hrest
      have hmk : String.mk s.data = s := rfl
      show splitSlashAux (joinSlash (s :: rest)).data [] = s :: rest
      rw [data_joinSlash_cons s rest hr, splitSlashAux_slash _ _ _ hs,
        List.reverse_nil, List.nil_append, hmk]
      exact congrArg (List.cons s) ihr

theorem includesSlash_joinSlash_cons (s : String) (rest : List String) (h : rest ≠ []) :
    includesSlash (joinSlash (s :: rest)) = true := by
  have hd := data_joinSlash_cons s rest h
  simp [includesSlash, hd]

/-! ## Claim theorems -/

/-- C2, counterexample.  The claim says that for every component kind
(agent, prompt, instruction, skill) an identifier with more than one `/`
uses only its final segment as the local destination filename.  For the
identifier `"a/b/c"` the agent and prompt installers instead use the
second segment `"b"` (the `const [category, filename] = name.split('/')`
destructuring takes index 1), so the agent is written to
`.github/agents/b.agent.md`, not `.../c.agent.md`. -/
theorem C2_counterexample :
    agentFileName "a/b/c" = "b"
    ∧ promptFileName "a/b/c" = "b"
    ∧ ("b" : String) ≠ "c"
    ∧ agentTargetFile "proj" "a/b/c" = "proj/.github/agents/b.agent.md"
    ∧ promptTargetFile "proj" "a/b/c" = "proj/.github/prompts/b.prompt.md" :=
  ⟨rfl, rfl, by decide, rfl, rfl⟩

/-- C2, amended.  For every identifier with more than one `/` (segments
`a :: b :: rest` with `rest` nonempty, each segment slash-free), the
instruction and skill installers use the final segment as the local
destination name, while the agent and prompt installers use the second
segment (index 1 of the split), which coincides with the final segment
only when the identifier contains exactly one `/`. -/
theorem C2_amended (a b : String) (rest : List String) (hr : rest ≠ [])
    (ha : includesSlash a = false) (hb : includesSlash b = false)
    (hrest : ∀ s ∈ rest, includesSlash s = false) :
    instructionFileName (joinSlash (a :: b :: rest)) = rest.getLastD b
    ∧ skillBaseNameOf (joinSlash (a :: b :: rest)) = rest.getLastD b
    ∧ agentFileName (joinSlash (a :: b :: rest)) = b
    ∧ promptFileName (joinSlash (a :: b :: rest)) = b := by
  have hmem : ∀ s ∈ a :: b :: rest, includesSlash s = false := by
    intro s hs
    rcases List.mem_cons.mp hs with h1 | hs
    · exact h1 ▸ ha
    rcases List.mem_cons.mp hs with h2 | hs
    · exact h2 ▸ hb
    · exact hrest s hs
  have hsplit : jsSplitSlash (joinSlash (a :: b :: rest)) = a :: b :: rest :=
    jsSplitSlash_joinSlash _ (List.cons_ne_nil a (b :: rest)) hmem
  have hinc : includesSlash (joinSlash (a :: b :: rest)) = true :=
    includesSlash_joinSlash_cons a (b :: rest) (List.cons_ne_nil b rest)
  have hlast : (a :: b :: rest).getLastD (joinSlash (a :: b :: rest)) = rest.getLastD b := by
    cases rest with
    | nil => exact absurd rfl hr
    | cons r ts =>
      obtain ⟨x, hx⟩ := Option.isSome_iff_exists.mp (List.getLast?_isSome.mpr
        (List.cons_ne_nil r ts))
      simp [List.getLastD, List.getLast?_cons_cons, hx]
  refine ⟨?_, ?_, ?_, ?_⟩
  · simpa [instructionFileName, hinc, hsplit] using hlast
  · simpa [skillBaseNameOf, hinc, hsplit] using hlast
  · simp [agentFileName, hinc, hsplit]
  · simp [promptFileName, hinc, hsplit]

/-- C2, witness for the amended theorem at the concrete identifier
`"x/y/z"`. -/
theorem C2_amended_witness :
    instructionFileName (joinSlash ["x", "y", "z"]) = ["z"].getLastD "y"
    ∧ skillBaseNameOf (joinSlash ["x", "y", "z"]) = ["z"].getLastD "y"
    ∧ agentFileName (joinSlash ["x", "y", "z"]) = "y"
    ∧ promptFileName (joinSlash ["x", "y", "z"]) = "y" :=
  C2_amended "x" "y" ["z"] (by decide) (by decide) (by decide)
    (by intro s hs; fin_cases hs; decide)

/-- C7.  For every component kind with an identifier-derived local path
(agent, prompt, instruction, skill) and every slash-free `category` and
`name`, installing `category ++ "/" ++ name` resolves to the same local
destination as installing `name` directly: the category segment is a
remote-path discriminator only.  (The MCP, `copilot-instructions.md`,
and `AGENTS.md` destinations do not depend on the identifier at all.) -/
theorem C7_category_irrelevant (category name targetDir : String)
    (hc : includesSlash category = false) (hn : includesSlash name = false) :
    agentTargetFile targetDir (category ++ "/" ++ name) = agentTargetFile targetDir name
    ∧ promptTargetFile targetDir (category ++ "/" ++ name) = promptTargetFile targetDir name
    ∧ instructionTargetFile targetDir (category ++ "/" ++ name)
        = instructionTargetFile targetDir name
    ∧ skillTargetDir targetDir (category ++ "/" ++ name) = skillTargetDir targetDir name := by
  have hjoin : joinSlash [category, name] = category ++ "/" ++ name := rfl
  have hmem : ∀ s ∈ [category, name], includesSlash s = false := by
    intro s hs
    rcases List.mem_cons.mp hs with h1 | hs
    · exact h1 ▸ hc
    rcases List.mem_cons.mp hs with h2 | hs
    · exact h2 ▸ hn
    · exact absurd hs (List.not_mem_nil s)
  have hsplit : jsSplitSlash (category ++ "/" ++ name) = [category, name] := by
    rw [← hjoin]
    exact jsSplitSlash_joinSlash _ (List.cons_ne_nil category [name]) hmem
  have hinc : includesSlash (category ++ "/" ++ name) = true := by
    rw [← hjoin]
    exact includesSlash_joinSlash_cons category [name] (List.cons_ne_nil name [])
  have hfa : agentFileName (category ++ "/" ++ name) = name := by
    simp [agentFileName, hinc, hsplit]
  have hfp : promptFileName (category ++ "/" ++ name) = name := by
    simp [promptFileName, hinc, hsplit]
  have hfi : instructionFileName (category ++ "/" ++ name) = name := by
    simp [instructionFileName, hinc, hsplit]
  have hfs : skillBaseNameOf (category ++ "/" ++ name) = name := by
    simp [skillBaseNameOf, hinc, hsplit]
  have hfa2 : agentFileName name = name := by simp [agentFileName, hn]
  have hfp2 : promptFileName name = name := by simp [promptFileName, hn]
  have hfi2 : instructionFileName name = name := by simp [instructionFileName, hn]
  have hfs2 : skillBaseNameOf name = name := by simp [skillBaseNameOf, hn]
  refine ⟨?_, ?_, ?_, ?_⟩
  · simp only [agentTargetFile]; rw [hfa, hfa2]
  · simp only [promptTargetFile]; rw [hfp, hfp2]
  · simp only [instructionTargetFile]; rw [hfi, hfi2]
  · simp only [skillTargetDir]; rw [hfs, hfs2]

/-- C7, witness at `category = "beginner-tutors"`,
`name = "python-basics-tutor"`. -/
theorem C7_category_irrelevant_witness :
    agentTargetFile "proj" ("beginner-tutors" ++ "/" ++ "python-basics-tutor")
        = agentTargetFile "proj" "python-basics-tutor"
    ∧ promptTargetFile "proj" ("beginner-tutors" ++ "/" ++ "python-basics-tutor")
        = promptTargetFile "proj" "python-basics-tutor"
    ∧ instructionTargetFile "proj" ("beginner-tutors" ++ "/" ++ "python-basics-tutor")
        = instructionTargetFile "proj" "python-basics-tutor"
    ∧ skillTargetDir "proj" ("beginner-tutors" ++ "/" ++ "python-basics-tutor")
        = skillTargetDir "proj" "python-basics-tutor" :=
  C7_category_irrelevant "beginner-tutors" "python-basics-tutor" "proj"
    (by decide) (by decide)

/-- Shared computation: when the sentinel `SKILL.md` is absent from the
buffered download map, `installIndividualSkill` returns `false` with the
filesystem untouched (the write loop runs only after the sentinel
check). -/
theorem installIndividualSkill_missing_sentinel (net : Network) (fuel : Nat)
    (skillName targetDir : String) (fs : FS) (ok : Bool) (files : DownloadMap)
    (hd : downloadDirectory net (skillBaseNameOf skillName) fuel
            (skillApiUrl skillName) "" [] = (ok, files))
    (h : dmLookup files (skillSentinelPath (skillBaseNameOf skillName)) = none) :
    installIndividualSkill net fuel skillName targetDir fs = (.ff, fs) := by
  simp only [installIndividualSkill, hd]
  cases ok
  · simp
  · simp [h]

/-- C5.  A skill install in which `SKILL.md` is not among the files
obtained from the recursive directory download returns failure (`false`,
never counted as a success), regardless of how many other files
downloaded successfully. -/
theorem C5_missing_sentinel_fails (net : Network) (fuel : Nat)
    (skillName targetDir : String) (fs : FS) (ok : Bool) (files : DownloadMap)
    (hd : downloadDirectory net (skillBaseNameOf skillName) fuel
            (skillApiUrl skillName) "" [] = (ok, files))
    (h : dmLookup files (skillSentinelPath (skillBaseNameOf skillName)) = none) :
    installIndividualSkill net fuel skillName targetDir fs = (.ff, fs)
    ∧ (installIndividualSkill net fuel skillName targetDir fs).1.truthy = false := by
  have hres := installIndividualSkill_missing_sentinel net fuel skillName targetDir fs
    ok files hd h
  exact ⟨hres, by rw [hres]; rfl⟩

/-- Concrete world for the C5 witness and the C6 counterexample: the
skill `"s"` lists a single file `other.md` (which downloads fine) and no
`SKILL.md`. -/
def skillNetNoSentinel : Network := fun url =>
  if url = skillApiUrl "s" then
    .success { listing := some [⟨"other.md", "file", "dl-other", "u-other"⟩] }
  else if url = "dl-other" then .success { text := "other content" }
  else .notFound

/-- C5, witness: the concrete sentinel-free skill install fails. -/
theorem C5_missing_sentinel_fails_witness :
    installIndividualSkill skillNetNoSentinel 1 "s" "proj" [] = (.ff, [])
    ∧ (installIndividualSkill skillNetNoSentinel 1 "s" "proj" []).1.truthy = false :=
  C5_missing_sentinel_fails skillNetNoSentinel 1 "s" "proj" []
    true [(".github/skills/s/other.md", ⟨"other content", false⟩)] rfl rfl

/-- C6, counterexample.  The claim says that after a missing-`SKILL.md`
failure the files downloaded before the failure are left in place on
disk.  In this concrete run `other.md` WAS downloaded (it sits in the
in-memory buffer), yet the install returns with the target project's
filesystem exactly as it started — nothing was ever written to disk, so
no partially-downloaded file exists there. -/
theorem C6_counterexample :
    (downloadDirectory skillNetNoSentinel "s" 1 (skillApiUrl "s") "" []).2
        = [(".github/skills/s/other.md", ⟨"other content", false⟩)]
    ∧ installIndividualSkill skillNetNoSentinel 1 "s" "proj" [] = (.ff, []) :=
  ⟨rfl, rfl⟩

/-- C6, amended.  When a skill install fails because `SKILL.md` is
missing, no file of that skill has been written to the target project at
all: downloads are buffered in memory and flushed only after the
sentinel check succeeds, so the failure leaves the filesystem unchanged
(there is nothing to clean up). -/
theorem C6_amended (net : Network) (fuel : Nat) (skillName targetDir : String)
    (fs : FS) (ok : Bool) (files : DownloadMap)
    (hd : downloadDirectory net (skillBaseNameOf skillName) fuel
            (skillApiUrl skillName) "" [] = (ok, files))
    (h : dmLookup files (skillSentinelPath (skillBaseNameOf skillName)) = none) :
    (installIndividualSkill net fuel skillName targetDir fs).2 = fs := by
  rw [installIndividualSkill_missing_sentinel net fuel skillName targetDir fs ok files hd h]

/-- C6, witness for the amended theorem at the concrete sentinel-free
world. -/
theorem C6_amended_witness :
    (installIndividualSkill skillNetNoSentinel 1 "s" "proj"
        [("proj/readme.txt", .text "keep")]).2 = [("proj/readme.txt", .text "keep")] :=
  C6_amended skillNetNoSentinel 1 "s" "proj" [("proj/readme.txt", .text "keep")]
    true [(".github/skills/s/other.md", ⟨"other content", false⟩)] rfl rfl

/-- C10.  Whenever the top-level directory listing request of a skill
install succeeds (2xx with an iterable body), the recursive walk's
top-level result is `true` no matter what happens to individual file
fetches (non-2xx or thrown fetches are silently skipped) or to
subdirectory listings (each recursive call's boolean result is
discarded); if `SKILL.md` is then among the buffered files, the install
is reported successful. -/
theorem C10_download_failures_ignored (net : Network) (fuel : Nat)
    (skillName targetDir : String) (fs : FS) (body : RespBody) (items : List DirItem)
    (hnet : net (skillApiUrl skillName) = .success body)
    (hlist : body.listing = some items)
    (hsk : (dmLookup
              (downloadDirectory net (skillBaseNameOf skillName) (fuel + 1)
                (skillApiUrl skillName) "" []).2
              (skillSentinelPath (skillBaseNameOf skillName))).isSome) :
    (downloadDirectory net (skillBaseNameOf skillName) (fuel + 1)
        (skillApiUrl skillName) "" []).1 = true
    ∧ installIndividualSkill net (fuel + 1) skillName targetDir fs
        = (.tt, writeDownloadedFiles targetDir
            (downloadDirectory net (skillBaseNameOf skillName) (fuel + 1)
              (skillApiUrl skillName) "" []).2 fs) := by
  have hdd1 : (downloadDirectory net (skillBaseNameOf skillName) (fuel + 1)
      (skillApiUrl skillName) "" []).1 = true := by
    simp [downloadDirectory, hnet, hlist]
  refine ⟨hdd1, ?_⟩
  rcases hdd : downloadDirectory net (skillBaseNameOf skillName) (fuel + 1)
      (skillApiUrl skillName) "" [] with ⟨ok, files⟩
  rw [hdd] at hdd1 hsk
  have hok : ok = true := hdd1
  subst hok
  have hsk2 : (dmLookup files (skillSentinelPath (skillBaseNameOf skillName))).isSome :=
    hsk
  simp only [installIndividualSkill, hdd]
  simp [Option.isSome_iff_ne_none.mp hsk2]

/-- Shared computation: a successful MCP install writes back the merged
document — existing config with its `servers` key set to the spread of
the existing server mapping under the description-stripped incoming one,
and the top-level `mcpServers` key deleted. -/
theorem installIndividualMCP_success_eq (net : Network) (m targetDir : String) (fs : FS)
    (body : RespBody) (payload existing : Json)
    (hn : net (mcpUrl m) = .success body) (hj : body.json = some payload)
    (hread : (match fsLookup fs (mcpTargetFile targetDir) with
              | none => some (Json.obj [])
              | some (.json j) => some j
              | some (.text _) => none) = some existing) :
    installIndividualMCP net m targetDir fs
      = (.tt, fsWrite fs (mcpTargetFile targetDir)
          (.json (jsDelete
            (jsSpreadSet existing "servers"
              (.obj (objSpread (jsProps (jsOrD (jsGet existing "servers") (.obj [])))
                (jsProps (stripDescriptions (extractServers payload))))))
            "mcpServers"))) := by
  simp only [installIndividualMCP, hn, hj]
  rw [hread]

/-- C1, counterexample.  The claim says every server entry present in an
existing `.vscode/mcp.json` survives the merge, including entries stored
under the legacy top-level key `mcpServers`.  In this concrete run the
existing file holds the entry `legacy-server` under `mcpServers`; the
install succeeds and the written document is exactly
`{"servers": {"incoming": {...}}}` — the `mcpServers` key was deleted
and `legacy-server` appears nowhere (the merge reads only
`existingConfig.servers`; the legacy key is honoured only in the
downloaded payload). -/
theorem C1_counterexample :
    jsGet (.obj [("mcpServers", .obj [("legacy-server", .obj [("command", .str "node")])])])
        "mcpServers"
      = some (.obj [("legacy-server", .obj [("command", .str "node")])])
    ∧ (installIndividualMCP
        (fun url =>
          if url = mcpUrl "web-fetch" then
            .success { json := some (.obj [("servers",
              .obj [("incoming", .obj [("command", .str "npx")])])]) }
          else .notFound)
        "web-fetch" "proj"
        [("proj/.vscode/mcp.json", .json (.obj [("mcpServers",
          .obj [("legacy-server", .obj [("command", .str "node")])])]))]).1 = .tt
    ∧ fsLookup (installIndividualMCP
        (fun url =>
          if url = mcpUrl "web-fetch" then
            .success { json := some (.obj [("servers",
              .obj [("incoming", .obj [("command", .str "npx")])])]) }
          else .notFound)
        "web-fetch" "proj"
        [("proj/.vscode/mcp.json", .json (.obj [("mcpServers",
          .obj [("legacy-server", .obj [("command", .str "node")])])]))]).2
        "proj/.vscode/mcp.json"
      = some (.json (.obj [("servers", .obj [("incoming", .obj [("command", .str "npx")])])])) :=
  ⟨rfl, rfl, rfl⟩

/-- C1, amended.  When the existing `.vscode/mcp.json` stores its
entries under the `servers` key, a successful install preserves every
one of them in the written merged file (no entry is silently dropped):
each existing name is still mapped, to its old definition or to the
incoming one on collision.  Entries stored under the legacy top-level
key `mcpServers` of the EXISTING file, however, are not carried over:
that key is deleted from the written document (the legacy spelling is
honoured only in the downloaded payload). -/
theorem C1_amended (net : Network) (m targetDir : String) (fs : FS)
    (body : RespBody) (payload existing : Json) (es : List (String × Json))
    (hn : net (mcpUrl m) = .success body) (hj : body.json = some payload)
    (hex : fsLookup fs (mcpTargetFile targetDir) = some (.json existing))
    (hs : jsGet existing "servers" = some (.obj es)) :
    ∃ cfg : Json, ∃ w : List (String × Json),
      (installIndividualMCP net m targetDir fs).1 = .tt
      ∧ fsLookup (installIndividualMCP net m targetDir fs).2 (mcpTargetFile targetDir)
          = some (.json cfg)
      ∧ jsGet cfg "servers" = some (.obj w)
      ∧ (∀ k, (objGet es k).isSome → (objGet w k).isSome)
      ∧ jsGet cfg "mcpServers" = none := by
  have hread : (match fsLookup fs (mcpTargetFile targetDir) with
      | none => some (Json.obj [])
      | some (.json j) => some j
      | some (.text _) => none) = some existing := by rw [hex]
  have heq := installIndividualMCP_success_eq net m targetDir fs body payload existing
    hn hj hread
  have hes : jsOrD (jsGet existing "servers") (.obj []) = .obj es := by
    rw [hs]; rfl
  set w := objSpread (jsProps (jsOrD (jsGet existing "servers") (.obj [])))
    (jsProps (stripDescriptions (extractServers payload))) with hw
  set cfg := jsDelete (jsSpreadSet existing "servers" (.obj w)) "mcpServers" with hcfg
  refine ⟨cfg, w, ?_, ?_, ?_, ?_, ?_⟩
  · rw [heq]
  · rw [heq]; exact fsLookup_fsWrite_self fs (mcpTargetFile targetDir) (.json cfg)
  · rw [hcfg, jsGet_jsDelete]
    have : ("servers" : String) ≠ "mcpServers" := by decide
    rw [if_neg this, jsGet_jsSpreadSet_self]
  · intro k hk
    rw [hw, objGet_objSpread, hes]
    cases hb : objGet (jsProps (stripDescriptions (extractServers payload))) k
    · simpa [jsProps] using hk
    · simp
  · rw [hcfg, jsGet_jsDelete, if_pos rfl]

/-- C1, witness for the amended theorem: an existing file with one entry
under `servers` keeps that entry after installing a payload carrying a
different server. -/
theorem C1_amended_witness :
    ∃ cfg : Json, ∃ w : List (String × Json),
      (installIndividualMCP
          (fun url =>
            if url = mcpUrl "web-fetch" then
              .success { json := some (.obj [("servers",
                .obj [("incoming", .obj [("command", .str "npx")])])]) }
            else .notFound)
          "web-fetch" "proj"
          [("proj/.vscode/mcp.json", .json (.obj [("servers",
            .obj [("kept-server", .obj [("command", .str "node")])])]))]).1 = .tt
      ∧ fsLookup (installIndividualMCP
          (fun url =>
            if url = mcpUrl "web-fetch" then
              .success { json := some (.obj [("servers",
                .obj [("incoming", .obj [("command", .str "npx")])])]) }
            else .notFound)
          "web-fetch" "proj"
          [("proj/.vscode/mcp.json", .json (.obj [("servers",
            .obj [("kept-server", .obj [("command", .str "node")])])]))]).2
          (mcpTargetFile "proj")
        = some (.json cfg)
      ∧ jsGet cfg "servers" = some (.obj w)
      ∧ (∀ k, (objGet [("kept-server", Json.obj [("command", Json.str "node")])] k).isSome
          → (objGet w k).isSome)
      ∧ jsGet cfg "mcpServers" = none :=
  C1_amended _ "web-fetch" "proj" _ _ _ _ _ rfl rfl rfl rfl

/-- C3.  Installing two MCP configs in sequence into a project with no
pre-existing `.vscode/mcp.json`: the written `servers` mapping maps each
name to the second payload's (description-stripped) definition when the
second payload defines it, else to the first payload's — so disjoint
name sets yield the union and a collision yields the second config's
definition — and no entry of the written mapping carries a `description`
field. -/
theorem C3_sequential_merge (net : Network) (m1 m2 targetDir : String) (fs : FS)
    (b1 b2 : RespBody) (payload1 payload2 : Json) (s1 s2 : List (String × Json))
    (hn1 : net (mcpUrl m1) = .success b1) (hj1 : b1.json = some payload1)
    (he1 : extractServers payload1 = .obj s1)
    (hn2 : net (mcpUrl m2) = .success b2) (hj2 : b2.json = some payload2)
    (he2 : extractServers payload2 = .obj s2)
    (hfs : fsLookup fs (mcpTargetFile targetDir) = none) :
    ∃ cfg : Json, ∃ w : List (String × Json),
      fsLookup (installIndividualMCP net m2 targetDir
          (installIndividualMCP net m1 targetDir fs).2).2 (mcpTargetFile targetDir)
        = some (.json cfg)
      ∧ jsGet cfg "servers" = some (.obj w)
      ∧ (∀ k, objGet s2 k = none → objGet w k = (objGet s1 k).map stripServer)
      ∧ (∀ k v, objGet s2 k = some v → objGet w k = some (stripServer v))
      ∧ (∀ k v, objGet w k = some v → jsGet v "description" = none) := by
  have hread1 : (match fsLookup fs (mcpTargetFile targetDir) with
      | none => some (Json.obj [])
      | some (.json j) => some j
      | some (.text _) => none) = some (Json.obj []) := by rw [hfs]
  have heq1 := installIndividualMCP_success_eq net m1 targetDir fs b1 payload1 (.obj [])
    hn1 hj1 hread1
  set s1s := jsProps (stripDescriptions (extractServers payload1)) with hs1sdef
  set s2s := jsProps (stripDescriptions (extractServers payload2)) with hs2sdef
  have hs1list : s1s = s1.map (fun p => (p.1, stripServer p.2)) := by
    rw [hs1sdef, he1]; rfl
  have hs2list : s2s = s2.map (fun p => (p.1, stripServer p.2)) := by
    rw [hs2sdef, he2]; rfl
  have hcfg1 : installIndividualMCP net m1 targetDir fs
      = (.tt, fsWrite fs (mcpTargetFile targetDir)
          (.json (.obj [("servers", Json.obj (objSpread [] s1s))]))) := by
    rw [heq1]; rfl
  have hread2 : (match fsLookup (installIndividualMCP net m1 targetDir fs).2
        (mcpTargetFile targetDir) with
      | none => some (Json.obj [])
      | some (.json j) => some j
      | some (.text _) => none)
      = some (.obj [("servers", Json.obj (objSpread [] s1s))]) := by
    rw [hcfg1]
    rw [fsLookup_fsWrite_self]
  have heq2 := installIndividualMCP_success_eq net m2 targetDir
    (installIndividualMCP net m1 targetDir fs).2 b2 payload2
    (.obj [("servers", Json.obj (objSpread [] s1s))]) hn2 hj2 hread2
  set w := objSpread (objSpread [] s1s) s2s with hwdef
  have hcfg2 : installIndividualMCP net m2 targetDir (installIndividualMCP net m1 targetDir fs).2
      = (.tt, fsWrite (installIndividualMCP net m1 targetDir fs).2 (mcpTargetFile targetDir)
          (.json (.obj [("servers", Json.obj w)]))) := by
    rw [heq2]; rfl
  have hW : ∀ k, objGet w k
      = (((objGet s2 k).map stripServer).map some).getD ((objGet s1 k).map stripServer) := by
    intro k
    have h1 : objGet s1s k = (objGet s1 k).map stripServer := by
      rw [hs1list]; exact objGet_mapVals (fun _ v => stripServer v) s1 k
    have h2 : objGet s2s k = (objGet s2 k).map stripServer := by
      rw [hs2list]; exact objGet_mapVals (fun _ v => stripServer v) s2 k
    rw [hwdef, objGet_objSpread, objGet_objSpread, h1, h2]
    cases objGet s1 k <;> cases objGet s2 k <;> simp [objGet]
  refine ⟨.obj [("servers", Json.obj w)], w, ?_, rfl, ?_, ?_, ?_⟩
  · rw [hcfg2]
    exact fsLookup_fsWrite_self _ _ _
  · intro k hk
    rw [hW k, hk]
    rfl
  · intro k v hk
    rw [hW k, hk]
    rfl
  · intro k v hv
    rw [hW k] at hv
    cases h2 : objGet s2 k with
    | some u =>
      rw [h2] at hv
      simp at hv
      exact hv ▸ jsGet_stripServer_description u
    | none =>
      rw [h2] at hv
      simp at hv
      obtain ⟨u, _, hu2⟩ := hv
      exact hu2 ▸ jsGet_stripServer_description u

/-- Concrete world for the C3 witness: payload `m1` defines servers `a`
(with a `description`) and `b`; payload `m2` redefines `a` (with a
`description`) and adds `c`. -/
def mcpSeqNet : Network := fun url =>
  if url = mcpUrl "m1" then
    .success { json := some (.obj [("servers", .obj
      [("a", .obj [("command", .str "node"), ("description", .str "first")]),
       ("b", .obj [("command", .str "npx")])])]) }
  else if url = mcpUrl "m2" then
    .success { json := some (.obj [("mcpServers", .obj
      [("a", .obj [("command", .str "python"), ("description", .str "second")]),
       ("c", .obj [("command", .str "deno")])])]) }
  else .notFound

/-- C3, witness: the concrete two-install sequence, showing union,
second-wins and description-stripping. -/
theorem C3_sequential_merge_witness :
    ∃ cfg : Json, ∃ w : List (String × Json),
      fsLookup (installIndividualMCP mcpSeqNet "m2" "proj"
          (installIndividualMCP mcpSeqNet "m1" "proj" []).2).2 (mcpTargetFile "proj")
        = some (.json cfg)
      ∧ jsGet cfg "servers" = some (.obj w)
      ∧ (∀ k, objGet [("a", Json.obj [("command", Json.str "python"),
              ("description", Json.str "second")]),
            ("c", Json.obj [("command", Json.str "deno")])] k = none →
          objGet w k = (objGet [("a", Json.obj [("command", Json.str "node"),
              ("description", Json.str "first")]),
            ("b", Json.obj [("command", Json.str "npx")])] k).map stripServer)
      ∧ (∀ k v, objGet [("a", Json.obj [("command", Json.str "python"),
              ("description", Json.str "second")]),
            ("c", Json.obj [("command", Json.str "deno")])] k = some v →
          objGet w k = some (stripServer v))
      ∧ (∀ k v, objGet w k = some v → jsGet v "description" = none) :=
  C3_sequential_merge mcpSeqNet "m1" "m2" "proj" [] _ _ _ _ _ _
    rfl rfl rfl rfl rfl rfl rfl

/-- C4.  A component identifier whose fetch yields HTTP 404 never throws
past the per-component boundary: each installer returns normally with a
falsy result (`undefined` from the bare `return;` of the agent, prompt
and MCP installers; `false` from the instruction and skill installers),
writes nothing into the target project, and a batch containing such an
item counts it as a failure (here: a one-agent batch attempts 1 and
succeeds 0). -/
theorem C4_notFound_soft_failure (net : Network) (confirm : ConfirmOracle)
    (name targetDir : String) (fs : FS) (fuel : Nat)
    (ha : net (agentUrl name) = .notFound)
    (hp : net (promptUrl name) = .notFound)
    (hm : net (mcpUrl name) = .notFound)
    (hi : net (instructionUrl name) = .notFound)
    (hs : net (skillApiUrl name) = .notFound)
    (hone : parseComponentList name = [name]) :
    installIndividualAgent net name targetDir fs = (.undef, fs)
    ∧ installIndividualPrompt net name targetDir fs = (.undef, fs)
    ∧ installIndividualMCP net name targetDir fs = (.undef, fs)
    ∧ installInstruction net name targetDir fs = (.ff, fs)
    ∧ installIndividualSkill net fuel name targetDir fs = (.ff, fs)
    ∧ installMultipleComponents net confirm { agent := some name } targetDir fuel fs
        = ⟨1, 0, .noneInstalled, fs⟩ := by
  have hag : installIndividualAgent net name targetDir fs = (.undef, fs) := by
    simp [installIndividualAgent, ha]
  refine ⟨hag, ?_, ?_, ?_, ?_, ?_⟩
  · simp [installIndividualPrompt, hp]
  · simp [installIndividualMCP, hm]
  · simp [installInstruction, hi]
  · cases fuel <;> simp [installIndividualSkill, downloadDirectory, hs]
  · simp [installMultipleComponents, componentsOf, hone, runInstalls, hag, JsRet.truthy]

/-- C4, witness: a world where every fetch 404s, with the identifier
`"missing"`. -/
theorem C4_notFound_soft_failure_witness :
    installIndividualAgent (fun _ => .notFound) "missing" "proj" [] = (.undef, [])
    ∧ installIndividualPrompt (fun _ => .notFound) "missing" "proj" [] = (.undef, [])
    ∧ installIndividualMCP (fun _ => .notFound) "missing" "proj" [] = (.undef, [])
    ∧ installInstruction (fun _ => .notFound) "missing" "proj" [] = (.ff, [])
    ∧ installIndividualSkill (fun _ => .notFound) 3 "missing" "proj" [] = (.ff, [])
    ∧ installMultipleComponents (fun _ => .notFound) (fun _ => false)
        { agent := some "missing" } "proj" 3 [] = ⟨1, 0, .noneInstalled, []⟩ :=
  C4_notFound_soft_failure (fun _ => .notFound) (fun _ => false) "missing" "proj" [] 3
    rfl rfl rfl rfl rfl rfl

/-- C9.  The singleton installs (`copilot-instructions.md` and workspace
`AGENTS.md`) against a project where the destination already exists:
with `--yes` the file is overwritten with the downloaded content and no
prompt is consulted (the result is the same for every prompt oracle);
without `--yes` the operator is prompted, and a declined answer makes
the install return `false` without writing, leaving the filesystem — and
hence the pre-existing file content — unchanged. -/
theorem C9_singleton_overwrite_prompt (net : Network) (confirm confirm2 : ConfirmOracle)
    (name afile targetDir : String) (fs : FS) (body bodyW : RespBody) (d dW : FileData)
    (hn : net (copilotInstructionsUrl name) = .success body)
    (hw : net (workspaceAgentsUrl afile) = .success bodyW)
    (hex : fsLookup fs (copilotInstructionsTargetFile targetDir) = some d)
    (hexW : fsLookup fs (workspaceAgentsTargetFile targetDir) = some dW) :
    installCopilotInstructions net confirm name targetDir true fs
      = (.tt, fsWrite fs (copilotInstructionsTargetFile targetDir) (.text body.text))
    ∧ installCopilotInstructions net confirm name targetDir true fs
      = installCopilotInstructions net confirm2 name targetDir true fs
    ∧ (confirm "copilot-instructions.md already exists. Overwrite?" = false →
        installCopilotInstructions net confirm name targetDir false fs = (.ff, fs))
    ∧ installWorkspaceAgents net confirm afile targetDir true fs
      = (.tt, fsWrite fs (workspaceAgentsTargetFile targetDir) (.text bodyW.text))
    ∧ installWorkspaceAgents net confirm afile targetDir true fs
      = installWorkspaceAgents net confirm2 afile targetDir true fs
    ∧ (confirm "AGENTS.md already exists. Overwrite?" = false →
        installWorkspaceAgents net confirm afile targetDir false fs = (.ff, fs)) := by
  have h1 : installCopilotInstructions net confirm name targetDir true fs
      = (.tt, fsWrite fs (copilotInstructionsTargetFile targetDir) (.text body.text)) := by
    simp [installCopilotInstructions, hn]
  have h1b : installCopilotInstructions net confirm2 name targetDir true fs
      = (.tt, fsWrite fs (copilotInstructionsTargetFile targetDir) (.text body.text)) := by
    simp [installCopilotInstructions, hn]
  have h4 : installWorkspaceAgents net confirm afile targetDir true fs
      = (.tt, fsWrite fs (workspaceAgentsTargetFile targetDir) (.text bodyW.text)) := by
    simp [installWorkspaceAgents, hw]
  have h4b : installWorkspaceAgents net confirm2 afile targetDir true fs
      = (.tt, fsWrite fs (workspaceAgentsTargetFile targetDir) (.text bodyW.text)) := by
    simp [installWorkspaceAgents, hw]
  refine ⟨h1, h1b ▸ h1, ?_, h4, h4b ▸ h4, ?_⟩
  · intro hdecline
    simp [installCopilotInstructions, hn, hex, hdecline]
  · intro hdecline
    simp [installWorkspaceAgents, hw, hexW, hdecline]

/-- Concrete world for the C9 witness. -/
def singletonNet : Network := fun url =>
  if url = copilotInstructionsUrl "beginner-friendly" then
    .success { text := "new instructions" }
  else if url = workspaceAgentsUrl "beginner-team" then
    .success { text := "new agents" }
  else .notFound

/-- Concrete pre-existing project for the C9 witness. -/
def singletonFS : FS :=
  [("proj/.github/copilot-instructions.md", .text "old instructions"),
   ("proj/AGENTS.md", .text "old agents")]

/-- C9, witness at the concrete world: overwrite with `--yes`, no-op on
decline without `--yes`. -/
theorem C9_singleton_overwrite_prompt_witness :
    installCopilotInstructions singletonNet (fun _ => false) "beginner-friendly" "proj"
        true singletonFS
      = (.tt, fsWrite singletonFS "proj/.github/copilot-instructions.md"
          (.text "new instructions"))
    ∧ installCopilotInstructions singletonNet (fun _ => false) "beginner-friendly" "proj"
        false singletonFS = (.ff, singletonFS) := by
  have h := C9_singleton_overwrite_prompt singletonNet (fun _ => false) (fun _ => true)
    "beginner-friendly" "beginner-team" "proj" singletonFS
    { text := "new instructions" } { text := "new agents" }
    (.text "old instructions") (.text "old agents") rfl rfl rfl rfl
  exact ⟨h.1, h.2.2.1 rfl⟩

/-- Concrete world for the C10 witness: the skill `"s"` lists
`SKILL.md` (downloads fine), `broken.md` (its fetch yields HTTP 500,
silently skipped) and a subdirectory whose own listing yields 404 (the
recursive call returns `false`, which is discarded) — and the install is
still reported successful. -/
def skillNetMixed : Network := fun url =>
  if url = skillApiUrl "s" then
    .success { listing := some [⟨"SKILL.md", "file", "dl-skill", "u-skill"⟩,
        ⟨"broken.md", "file", "dl-broken", "u-broken"⟩,
        ⟨"sub", "dir", "", "u-sub"⟩] }
  else if url = "dl-skill" then .success { text := "skill body" }
  else if url = "dl-broken" then .httpError 500 "Internal Server Error"
  else .notFound

/-- C10, witness: the concrete partially-failing skill install is
reported successful and writes exactly the one file that downloaded. -/
theorem C10_download_failures_ignored_witness :
    installIndividualSkill skillNetMixed 2 "s" "proj" []
      = (.tt, [("proj/.github/skills/s/SKILL.md", .text "skill body")]) := by
  have h := (C10_download_failures_ignored skillNetMixed 1 "s" "proj" []
    { listing := some
        [⟨"SKILL.md", "file", "dl-skill", "u-skill"⟩,
         ⟨"broken.md", "file", "dl-broken", "u-broken"⟩,
         ⟨"sub", "dir", "", "u-sub"⟩] }
    [⟨"SKILL.md", "file", "dl-skill", "u-skill"⟩,
     ⟨"broken.md", "file", "dl-broken", "u-broken"⟩,
     ⟨"sub", "dir", "", "u-sub"⟩] rfl rfl rfl).2
  exact h.trans rfl

/-- Concrete world for C8: agent `a` downloads fine, agent `b` yields
HTTP 404, and skill `s1` lists a single `SKILL.md` that downloads
fine. -/
def batchNet : Network := fun url =>
  if url = agentUrl "a" then .success { text := "agent a" }
  else if url = agentUrl "b" then .notFound
  else if url = skillApiUrl "s1" then
    .success { listing := some [⟨"SKILL.md", "file", "dl-s1", "u-s1"⟩] }
  else if url = "dl-s1" then .success { text := "skill s1" }
  else .netThrow "unreachable"

/-- C8.  The batch `--agent a,b --skill s1` where `a` succeeds, `b`
404s and `s1` succeeds attempts 3 components, succeeds on 2, reports
the mixed summary "2 of 3", and the process exits with code 0; and on
the multi-component path the exit code is 0 for EVERY world, option set
and starting filesystem, because `installMultipleComponents` catches
every error below the top-level handler (exit code 1 would require a
thrown error to reach that handler). -/
theorem C8_batch_mixed_report :
    cliBatchRun batchNet (fun _ => false) { agent := some "a,b", skill := some "s1" }
        "proj" 5 []
      = (0, ⟨3, 2, .mixed 2 3,
          [("proj/.github/skills/s1/SKILL.md", .text "skill s1"),
           ("proj/.github/agents/a.agent.md", .text "agent a")]⟩)
    ∧ ∀ (net : Network) (confirm : ConfirmOracle) (opts : Options)
        (targetDir : String) (fuel : Nat) (fs : FS),
        (cliBatchRun net confirm opts targetDir fuel fs).1 = 0 :=
  ⟨rfl, fun _ _ _ _ _ _ => rfl⟩

end Cct
